import Mathlib

/-!
# Verification of the Pipeline orchestration runtime

A shallow embedding of the core of the `w0fv1/Pipeline` repository:

* the `Node` lifecycle state machine (`src/node/core/Node.ts`):
  `receive`, `dispatch`, `register`, `start` (with inbound/outbound buffering
  and the dispose/abort checks), `dispose` (memoized single-flight),
  `assertBuildTime`;
* the composite child registration (`src/node/core/BaseParallelNode.ts`);
* the orchestrator (`src/Pipeline.ts`): dependency-graph construction over
  anchors, Kahn topological sort, the active-anchor filter, and the
  start/rollback driver.

JavaScript objects are modelled by explicit state records; node identity by
`Nat` ids; promises by explicit result values (`Except`/`Bool`); the (single
threaded) asynchronous interleavings that the code must tolerate are modelled
by explicit schedules of actions delivered at the `await` points of the
source code.
-/

namespace PipelineSpec

/-! ## Messages (`Message<D>` in `src/node/core/Node.ts`)

`id` is the `randomUUID()` value, `nodeName`/`nodeId` identify the producing
node, `time` is the timestamp (`Date.now()` or a caller-supplied event time),
`data` the payload. -/

structure Message (D : Type) where
  id : Nat
  nodeName : String
  nodeId : Nat
  time : Int
  data : D
deriving DecidableEq, Repr

/-- Errors thrown by `Node` methods (the `throw new Error(...)` sites). -/
inductive NodeErr where
  /-- Thrown as `Node '<name>' is disposed.` / `... cannot be started because it is disposed/aborted.` -/
  | disposedErr (name : String)
  /-- Thrown as `Node '<name>' has been aborted.` -/
  | abortedErr (name : String)
  /-- Thrown as `Node '<name>' has not been started.` -/
  | notStarted (name : String)
  /-- the user `onStart` hook rejected -/
  | hookFailed (name : String)
  /-- Thrown as `Node '<name>' disposed/aborted during start().` -/
  | disposedDuringStart (name : String)
  /-- Thrown as `Pipeline '<name>' already started. '<op>' is build-time only.` -/
  | alreadyStarted (name : String) (op : String)
deriving DecidableEq, Repr

/-- A `console.error` record carrying message/node identifiers, as logged by
`receive` (`onReceive failed`) and `flushInbound`. -/
structure LogEntry where
  nodeName : String
  nodeId : Nat
  msgId : Nat
  msgNodeName : String
  msgNodeId : Nat
deriving DecidableEq, Repr

/-! ## Node state (the mutable fields of `class Node<TIn, TOut>`) -/

/-- The mutable state of a `Node<TIn, TOut>` instance:
`consumers` (downstream ids, insertion order, duplicates suppressed),
the `started`/`starting`/`disposed` flags, the `AbortController` signal
(`aborted`), both message buffers, and the memoized dispose operation
(`disposePromise`): `disposeMemo = some b` records a settled dispose whose
outcome is `b` (`true` = resolved), and `teardownRuns` counts `onDispose`
executions (instrumentation for the exactly-once property). -/
structure NodeState (TIn TOut : Type) where
  id : Nat
  name : String
  consumers : List Nat
  started : Bool
  starting : Bool
  disposed : Bool
  aborted : Bool
  inbound : List (Message TIn)
  outbound : List (Message TOut)
  disposeMemo : Option Bool
  teardownRuns : Nat
deriving DecidableEq, Repr

variable {TIn TOut : Type}

/-- Model of `Node.receive(msg)`: throws if disposed, throws if aborted; while starting
(and not yet started) buffers the message and returns; if never started
throws; once started invokes the user hook `onReceive`, catching a failure and
logging it with message/node identifiers.  `hookOk` is the outcome of the user
hook; the returned list holds the `console.error` records produced. -/
def receive (s : NodeState TIn TOut) (hookOk : Bool) (m : Message TIn) :
    NodeState TIn TOut × Except NodeErr Unit × List LogEntry :=
  if s.disposed then (s, .error (.disposedErr s.name), [])
  else if s.aborted then (s, .error (.abortedErr s.name), [])
  else if !s.started then
    if s.starting then ({ s with inbound := s.inbound ++ [m] }, .ok (), [])
    else (s, .error (.notStarted s.name), [])
  else if hookOk then (s, .ok (), [])
  else (s, .ok (), [⟨s.name, s.id, m.id, m.nodeName, m.nodeId⟩])

/-- Model of `Node.dispatchInternal(data, time?)`: silently no-ops when
disposed/aborted; builds the message (fresh uuid `freshId`, timestamp `time`
or `Date.now() = now`); while starting buffers it on the outbound buffer;
if never started throws; once started fans it out to the consumer snapshot.
The third component is the list of messages handed to `fanout` immediately. -/
def dispatchInternal (s : NodeState TIn TOut) (data : TOut) (freshId : Nat)
    (now : Int) (time : Option Int) :
    NodeState TIn TOut × Except NodeErr Unit × List (Message TOut) :=
  if s.disposed || s.aborted then (s, .ok (), [])
  else
    let msg : Message TOut := ⟨freshId, s.name, s.id, time.getD now, data⟩
    if !s.started then
      if s.starting then ({ s with outbound := s.outbound ++ [msg] }, .ok (), [])
      else (s, .error (.notStarted s.name), [])
    else (s, .ok (), [msg])

/-- Model of `Node.register(consumer)`: appends the consumer unless already present.
The source method performs no lifecycle check and has no failure path. -/
def register (s : NodeState TIn TOut) (consumerId : Nat) : NodeState TIn TOut :=
  if s.consumers.contains consumerId then s
  else { s with consumers := s.consumers ++ [consumerId] }

/-- Model of `Node.assertBuildTime(op)`: rejects when disposed/aborted, then when
started/starting. -/
def assertBuildTime (s : NodeState TIn TOut) (op : String) : Except NodeErr Unit :=
  if s.disposed || s.aborted then .error (.disposedErr s.name)
  else if s.started || s.starting then .error (.alreadyStarted s.name op)
  else .ok ()

/-! ## `BaseParallelNode` child registration -/

/-- The extra state of a `BaseParallelNode`: its `children` list (ids). -/
structure ParallelNodeState (TIn TOut : Type) where
  base : NodeState TIn TOut
  children : List Nat
deriving DecidableEq, Repr

/-- Model of `BaseParallelNode.addChildBuildTime(child)`: `assertBuildTime("add child")`
then push the child (the `wireChild` call mutates the child's consumer list
and is modelled by `register` on the child's own state). -/
def addChildBuildTime (p : ParallelNodeState TIn TOut) (childId : Nat) :
    Except NodeErr (ParallelNodeState TIn TOut) :=
  match assertBuildTime p.base "add child" with
  | .error e => .error e
  | .ok _ => .ok { p with children := p.children ++ [childId] }

/-! ## `Node.dispose()` (memoized single-flight)

`dispose()` returns the memoized `disposePromise` when present; otherwise it
synchronously sets `disposed`, aborts the controller, clears both buffers,
then (after awaiting any in-flight start, whose outcome is swallowed) runs the
`onDispose` teardown hook exactly once and memoizes the settled outcome.
`teardownOk` is the outcome of the teardown hook (`false` = it threw, which is
surfaced to the caller); the returned `Bool` is the caller-visible outcome
(`true` = resolved). -/
def disposeCall (s : NodeState TIn TOut) (teardownOk : Bool) :
    NodeState TIn TOut × Bool :=
  match s.disposeMemo with
  | some o => (s, o)
  | none =>
      ({ s with disposed := true, aborted := true, inbound := [], outbound := [],
                teardownRuns := s.teardownRuns + 1, disposeMemo := some teardownOk },
       teardownOk)

/-- A sequence of `dispose()` calls (concurrent callers all observe the same
memoized promise, so any interleaving behaves as this sequence).  Each list
element is the teardown-hook outcome that call would observe were it the one
to run the hook; returns the final state and each caller's outcome. -/
def disposeCalls (s : NodeState TIn TOut) : List Bool → NodeState TIn TOut × List Bool
  | [] => (s, [])
  | ok :: rest =>
      let (s1, r) := disposeCall s ok
      let (s2, rs) := disposeCalls s1 rest
      (s2, r :: rs)

/-! ## `Node.startInternal()` with an explicit interference schedule

`startInternal` awaits the user `onStart` hook; while that hook is pending the
single-threaded runtime may interleave `receive` calls (buffered inbound),
`dispatch` calls from the hook itself (buffered outbound) and a `dispose()`
call (which synchronously sets `disposed`, aborts, and clears both buffers;
its teardown runs only after start settles).  These interleavings are the
`StartAction` schedule.  Disposal may also be observed at the suspension
points of the flush phase; the booleans `dBeforeFlushOut`, `dBetweenFlushes`
and `dAfterFlushIn` place a `dispose()` at those `await` boundaries. -/
inductive StartAction (TIn TOut : Type) where
  /-- an upstream `receive(m)` arrives while `onStart` is pending -/
  | recv (m : Message TIn)
  /-- the node itself dispatches `m` while `onStart` is pending -/
  | disp (m : Message TOut)
  /-- a `dispose()` call arrives while `onStart` is pending -/
  | callDispose
deriving DecidableEq, Repr

/-- The immediate synchronous effect of `dispose()` (flags set, buffers
cleared); the teardown itself awaits the start promise and is not part of
`startInternal`'s trace. -/
def disposeEffect (s : NodeState TIn TOut) : NodeState TIn TOut :=
  { s with disposed := true, aborted := true, inbound := [], outbound := [] }

/-- Effect of one interleaved action on the node state (while `starting`). -/
def applyStartAction (s : NodeState TIn TOut) :
    StartAction TIn TOut → NodeState TIn TOut
  | .recv m =>
      if s.disposed || s.aborted then s
      else if !s.started && s.starting then { s with inbound := s.inbound ++ [m] }
      else s
  | .disp m =>
      if s.disposed || s.aborted then s
      else if !s.started && s.starting then { s with outbound := s.outbound ++ [m] }
      else s
  | .callDispose => disposeEffect s

/-- Observable events of a `startInternal` run: completion of the `onStart`
hook, a fan-out of a buffered outbound message (`flushOutbound`), and the
delivery of a buffered inbound message through `receive`/`onReceive`
(`flushInbound`). -/
inductive StartEv (TIn TOut : Type) where
  | initDone
  | fanout (m : Message TOut)
  | deliver (m : Message TIn)
deriving DecidableEq, Repr

/-- Model of `Node.flushOutbound()`: when disposed/aborted just clears the buffer;
otherwise drains the buffer and fans each message out in order. -/
def flushOutbound (s : NodeState TIn TOut) :
    NodeState TIn TOut × List (StartEv TIn TOut) :=
  if s.disposed || s.aborted then ({ s with outbound := [] }, [])
  else ({ s with outbound := [] }, s.outbound.map .fanout)

/-- Model of `Node.flushInbound()`: when disposed/aborted just clears the buffer;
otherwise drains the buffer and delivers each message in order through
`receive` (the node is started by now, so each delivery reaches the
`onReceive` hook; hook failures are caught and logged). -/
def flushInbound (s : NodeState TIn TOut) :
    NodeState TIn TOut × List (StartEv TIn TOut) :=
  if s.disposed || s.aborted then ({ s with inbound := [] }, [])
  else ({ s with inbound := [] }, s.inbound.map .deliver)

/-- Result of a `startInternal` run: final state, event trace and the settled
outcome of the start promise. -/
structure StartOutcome (TIn TOut : Type) where
  state : NodeState TIn TOut
  trace : List (StartEv TIn TOut)
  result : Except NodeErr Unit
deriving Repr

/-- The final check of `Node.startInternal()` after both flushes: if disposal
happened during the flush phase, `start()` must still reject. -/
def finalStartCheck (s5a : NodeState TIn TOut) (trace : List (StartEv TIn TOut))
    (origName : String) : StartOutcome TIn TOut :=
  if s5a.disposed || s5a.aborted then
    ⟨s5a, trace, .error (.disposedDuringStart origName)⟩
  else ⟨s5a, trace, .ok ()⟩

/-- The tail of `Node.startInternal()` after a successful `onStart` hook and
post-hook disposal check, starting from the state `s2` reached by then:
mark `started` (resetting `starting`), run `flushOutbound` then
`flushInbound`, and reject if disposal/abort is observed by the final check.
The booleans place a `dispose()` effect at the three `await` boundaries of
this phase. -/
def startFlushes (s2 : NodeState TIn TOut) (origName : String)
    (dBeforeFlushOut dBetweenFlushes dAfterFlushIn : Bool) : StartOutcome TIn TOut :=
  let s3 := { s2 with started := true, starting := false }
  let s3a := if dBeforeFlushOut then disposeEffect s3 else s3
  let (s4, evOut) := flushOutbound s3a
  let s4a := if dBetweenFlushes then disposeEffect s4 else s4
  let (s5, evIn) := flushInbound s4a
  let s5a := if dAfterFlushIn then disposeEffect s5 else s5
  finalStartCheck s5a (.initDone :: (evOut ++ evIn)) origName

/-- Model of `Node.startInternal()`.  `acts` is the schedule of interleaved actions
delivered while the `onStart` hook is pending; `onStartOk` its outcome.
Mirrors the source exactly: early return when already started; reject when
disposed/aborted; set `starting`; await `onStart` (the `acts` fold); on a hook
failure, or on disposal observed right after the hook, clear both buffers and
rethrow (with `starting` reset); otherwise mark `started`, flush outbound then
inbound, and reject if disposal is observed by the final check
(`startFlushes`). -/
def startInternal (s0 : NodeState TIn TOut) (acts : List (StartAction TIn TOut))
    (onStartOk : Bool) (dBeforeFlushOut dBetweenFlushes dAfterFlushIn : Bool) :
    StartOutcome TIn TOut :=
  if s0.started then ⟨s0, [], .ok ()⟩
  else if s0.disposed || s0.aborted then ⟨s0, [], .error (.disposedErr s0.name)⟩
  else
    let s2 := acts.foldl applyStartAction { s0 with starting := true }
    if !onStartOk then
      ⟨{ s2 with starting := false, inbound := [], outbound := [] }, [],
        .error (.hookFailed s0.name)⟩
    else if s2.disposed || s2.aborted then
      ⟨{ s2 with starting := false, inbound := [], outbound := [] }, [.initDone],
        .error (.disposedDuringStart s0.name)⟩
    else startFlushes s2 s0.name dBeforeFlushOut dBetweenFlushes dAfterFlushIn

/-- The inbound messages of a schedule, in arrival order. -/
def recvMsgs : List (StartAction TIn TOut) → List (Message TIn)
  | [] => []
  | .recv m :: rest => m :: recvMsgs rest
  | _ :: rest => recvMsgs rest

/-- The outbound (self-dispatched) messages of a schedule, in arrival order. -/
def dispMsgs : List (StartAction TIn TOut) → List (Message TOut)
  | [] => []
  | .disp m :: rest => m :: dispMsgs rest
  | _ :: rest => dispMsgs rest

/-! ### Schedule fold lemmas -/

lemma applyStartAction_disposed_mono (s : NodeState TIn TOut)
    (a : StartAction TIn TOut) (h : s.disposed = true) :
    (applyStartAction s a).disposed = true := by
  cases a <;> simp [applyStartAction, disposeEffect, h]

lemma foldl_applyStartAction_disposed_mono (acts : List (StartAction TIn TOut))
    (s : NodeState TIn TOut) (h : s.disposed = true) :
    (acts.foldl applyStartAction s).disposed = true := by
  induction acts generalizing s with
  | nil => exact h
  | cons a rest ih => exact ih _ (applyStartAction_disposed_mono s a h)

lemma foldl_applyStartAction_dispose_mem (acts : List (StartAction TIn TOut))
    (s : NodeState TIn TOut) (h : StartAction.callDispose ∈ acts) :
    (acts.foldl applyStartAction s).disposed = true := by
  induction acts generalizing s with
  | nil => cases h
  | cons a rest ih =>
      rcases List.mem_cons.1 h with h1 | h1
      · subst h1
        exact foldl_applyStartAction_disposed_mono rest _ rfl
      · exact ih _ h1

/-- A schedule without a `dispose()` call just appends the arriving messages
to the two buffers, leaving every flag unchanged. -/
lemma foldl_applyStartAction_no_dispose (acts : List (StartAction TIn TOut))
    (s : NodeState TIn TOut)
    (hst : s.started = false) (hsg : s.starting = true)
    (hd : s.disposed = false) (ha : s.aborted = false)
    (hnd : StartAction.callDispose ∉ acts) :
    acts.foldl applyStartAction s =
      { s with inbound := s.inbound ++ recvMsgs acts,
               outbound := s.outbound ++ dispMsgs acts } := by
  induction acts generalizing s with
  | nil => simp [recvMsgs, dispMsgs]
  | cons a rest ih =>
      have hnd' : StartAction.callDispose ∉ rest := fun hm => hnd (List.mem_cons_of_mem _ hm)
      cases a with
      | recv m =>
          have hstep : applyStartAction s (.recv m) = { s with inbound := s.inbound ++ [m] } := by
            simp [applyStartAction, hst, hsg, hd, ha]
          rw [List.foldl_cons, hstep,
            ih { s with inbound := s.inbound ++ [m] } hst hsg hd ha hnd']
          simp [recvMsgs, dispMsgs]
      | disp m =>
          have hstep : applyStartAction s (.disp m) = { s with outbound := s.outbound ++ [m] } := by
            simp [applyStartAction, hst, hsg, hd, ha]
          rw [List.foldl_cons, hstep,
            ih { s with outbound := s.outbound ++ [m] } hst hsg hd ha hnd']
          simp [recvMsgs, dispMsgs]
      | callDispose => exact absurd (List.mem_cons_self _ _) hnd

/-! ### `startFlushes` lemmas -/

lemma finalStartCheck_state (s : NodeState TIn TOut) (tr : List (StartEv TIn TOut))
    (n : String) : (finalStartCheck s tr n).state = s := by
  unfold finalStartCheck
  split <;> rfl

lemma finalStartCheck_ok_flags (s : NodeState TIn TOut) (tr : List (StartEv TIn TOut))
    (n : String) (h : (finalStartCheck s tr n).result = .ok ()) :
    s.disposed = false ∧ s.aborted = false := by
  rcases hd : s.disposed <;> rcases ha : s.aborted <;> simp_all [finalStartCheck]

/-- A clean flush phase (no disposal anywhere): fans out the outbound buffer
in order, then delivers the inbound buffer in order, and resolves. -/
lemma startFlushes_clean (s2 : NodeState TIn TOut) (n : String)
    (hd : s2.disposed = false) (ha : s2.aborted = false) :
    startFlushes s2 n false false false =
      ⟨{ s2 with started := true, starting := false, inbound := [], outbound := [] },
       .initDone :: (s2.outbound.map .fanout ++ s2.inbound.map .deliver),
       .ok ()⟩ := by
  simp [startFlushes, finalStartCheck, flushOutbound, flushInbound, hd, ha]

/-- Disposal at any flush boundary makes the flush phase reject. -/
lemma startFlushes_dispose_error (s2 : NodeState TIn TOut) (n : String)
    (d1 d2 d3 : Bool) (hflag : d1 = true ∨ d2 = true ∨ d3 = true) :
    (startFlushes s2 n d1 d2 d3).result = .error (.disposedDuringStart n) := by
  cases d1 <;> cases d2 <;> cases d3 <;>
    simp_all [startFlushes, finalStartCheck, flushOutbound, flushInbound,
      disposeEffect] <;>
    (repeat' split) <;> simp_all [disposeEffect]

/-- If the flush phase resolves, the final state is neither disposed nor
aborted. -/
lemma startFlushes_ok_flags (s2 : NodeState TIn TOut) (n : String) (d1 d2 d3 : Bool)
    (h : (startFlushes s2 n d1 d2 d3).result = .ok ()) :
    (startFlushes s2 n d1 d2 d3).state.disposed = false ∧
    (startFlushes s2 n d1 d2 d3).state.aborted = false := by
  simp only [startFlushes] at h ⊢
  rw [finalStartCheck_state]
  exact finalStartCheck_ok_flags _ _ _ h

/-- The flush phase always leaves both buffers empty. -/
lemma startFlushes_buffers_empty (s2 : NodeState TIn TOut) (n : String)
    (d1 d2 d3 : Bool) :
    (startFlushes s2 n d1 d2 d3).state.inbound = [] ∧
    (startFlushes s2 n d1 d2 d3).state.outbound = [] := by
  simp only [startFlushes]
  rw [finalStartCheck_state]
  cases d2 <;> cases d3 <;>
    simp [flushInbound, flushOutbound, disposeEffect] <;>
    (repeat' split) <;> simp_all [disposeEffect]

/-! ### Claim theorems: Node lifecycle -/

/-- Claim C4: For every Unit in a clean not-yet-started state, and every
schedule of messages arriving while the Unit is starting (no disposal),
a successful start run produces exactly the trace
`initDone`, then the fan-out of the buffered outbound messages in arrival
order, then the delivery of the buffered inbound messages to the process hook
in arrival order — so each buffered message is delivered exactly in arrival
order, strictly after the initialization hook completes, and (being part of
`startInternal`, which `start()` awaits) before `start()` resolves; and the
outbound flush precedes the inbound flush. -/
theorem start_buffers_delivered_in_order (s0 : NodeState TIn TOut)
    (acts : List (StartAction TIn TOut))
    (h1 : s0.started = false) (h2 : s0.starting = false)
    (h3 : s0.disposed = false) (h4 : s0.aborted = false)
    (h5 : s0.inbound = []) (h6 : s0.outbound = [])
    (hnd : StartAction.callDispose ∉ acts) :
    startInternal s0 acts true false false false =
      ⟨{ s0 with started := true, starting := false, inbound := [], outbound := [] },
       .initDone :: ((dispMsgs acts).map .fanout ++ (recvMsgs acts).map .deliver),
       .ok ()⟩ := by
  have hfold : List.foldl applyStartAction { s0 with starting := true } acts =
      { s0 with starting := true, inbound := recvMsgs acts, outbound := dispMsgs acts } := by
    rw [foldl_applyStartAction_no_dispose acts { s0 with starting := true } h1 rfl h3 h4 hnd]
    simp [h5, h6]
  simp only [startInternal, hfold]
  simp [startFlushes, finalStartCheck, flushOutbound, flushInbound, h1, h3, h4]

/-- Witness for C4: two inbound and one outbound message arriving while
starting are flushed outbound-first and delivered inbound in arrival order. -/
theorem start_buffers_delivered_in_order_witness :
    startInternal (⟨1, "n", [], false, false, false, false, [], [], none, 0⟩ :
          NodeState Nat Nat)
        [.recv ⟨10, "p", 2, 0, 100⟩, .disp ⟨11, "n", 1, 0, 200⟩,
         .recv ⟨12, "p", 2, 1, 101⟩] true false false false =
      ⟨⟨1, "n", [], true, false, false, false, [], [], none, 0⟩,
       [.initDone, .fanout ⟨11, "n", 1, 0, 200⟩,
        .deliver ⟨10, "p", 2, 0, 100⟩, .deliver ⟨12, "p", 2, 1, 101⟩],
       .ok ()⟩ := by
  rw [start_buffers_delivered_in_order _ _ rfl rfl rfl rfl rfl rfl (by decide)]
  rfl

/-- Claim C5: (a) If `dispose()`/cancellation occurs while `start()` is running
the initialization hook or at either buffer flush, `start()` rejects — even
when the hook itself succeeded; (b) `start()` never resolves leaving the Unit
disposed or aborted. -/
theorem start_rejects_when_disposed_during_start :
    (∀ (s0 : NodeState TIn TOut) acts onStartOk d1 d2 d3,
      s0.started = false →
      (StartAction.callDispose ∈ acts ∨ d1 = true ∨ d2 = true ∨ d3 = true) →
      ∃ e, (startInternal s0 acts onStartOk d1 d2 d3).result = .error e)
  ∧ (∀ (s0 : NodeState TIn TOut) acts onStartOk d1 d2 d3,
      s0.started = false →
      (startInternal s0 acts onStartOk d1 d2 d3).result = .ok () →
      (startInternal s0 acts onStartOk d1 d2 d3).state.disposed = false ∧
      (startInternal s0 acts onStartOk d1 d2 d3).state.aborted = false) := by
  constructor
  · intro s0 acts onStartOk d1 d2 d3 h1 hd
    suffices key : ∀ o : StartOutcome TIn TOut,
        startInternal s0 acts onStartOk d1 d2 d3 = o → ∃ e, o.result = .error e from
      key _ rfl
    intro o heq
    simp only [startInternal, h1, Bool.false_eq_true, if_false] at heq
    split at heq
    · exact heq ▸ ⟨_, rfl⟩
    · split at heq
      · exact heq ▸ ⟨_, rfl⟩
      · split at heq
        · exact heq ▸ ⟨_, rfl⟩
        · rename_i hok hnd
          -- the schedule cannot contain a dispose call, else the post-hook
          -- check would have fired
          have hacts : StartAction.callDispose ∉ acts := by
            intro hmem
            have hdisp := fun s : NodeState TIn TOut =>
              foldl_applyStartAction_dispose_mem acts s hmem
            simp [hdisp] at hnd
          have hflag : d1 = true ∨ d2 = true ∨ d3 = true := by
            rcases hd with h | h
            · exact absurd h hacts
            · exact h
          exact ⟨_, heq ▸ startFlushes_dispose_error _ _ _ _ _ hflag⟩
  · intro s0 acts onStartOk d1 d2 d3 h1 hok
    suffices key : ∀ o : StartOutcome TIn TOut,
        startInternal s0 acts onStartOk d1 d2 d3 = o → o.result = .ok () →
        o.state.disposed = false ∧ o.state.aborted = false from
      key _ rfl hok
    intro o heq hres
    simp only [startInternal, h1, Bool.false_eq_true, if_false] at heq
    split at heq
    · subst heq; simp at hres
    · split at heq
      · subst heq; simp at hres
      · split at heq
        · subst heq; simp at hres
        · rw [← heq] at hres ⊢
          exact startFlushes_ok_flags _ _ _ _ _ hres

/-- A clean, never-started node used to instantiate the lifecycle theorems. -/
def cleanNodeExample : NodeState Nat Nat :=
  { id := 1, name := "n", consumers := [], started := false, starting := false,
    disposed := false, aborted := false, inbound := [], outbound := [],
    disposeMemo := none, teardownRuns := 0 }

/-- A started node used to instantiate the lifecycle theorems. -/
def startedNodeExample : NodeState Nat Nat :=
  { id := 1, name := "n", consumers := [], started := true, starting := false,
    disposed := false, aborted := false, inbound := [], outbound := [],
    disposeMemo := none, teardownRuns := 0 }

/-- Witness for C5: a dispose call during the hook makes start reject, and a
clean run resolves with the node neither disposed nor aborted. -/
theorem start_rejects_when_disposed_during_start_witness :
    (∃ e, (startInternal cleanNodeExample [StartAction.callDispose] true
        false false false).result = .error e)
  ∧ ((startInternal cleanNodeExample ([] : List (StartAction Nat Nat)) true
        false false false).state.disposed = false ∧
     (startInternal cleanNodeExample ([] : List (StartAction Nat Nat)) true
        false false false).state.aborted = false) :=
  ⟨start_rejects_when_disposed_during_start.1 cleanNodeExample
      [StartAction.callDispose] true false false false rfl
      (Or.inl (List.mem_singleton.mpr rfl)),
   start_rejects_when_disposed_during_start.2 cleanNodeExample [] true
      false false false rfl rfl⟩

/-- Claim C9: Whenever `start()` fails — a failing hook, or disposal observed
during the hook or the flush phase — both message buffers end up empty, so
messages buffered while starting are discarded and cannot be delivered
afterwards. -/
theorem start_failure_clears_buffers (s0 : NodeState TIn TOut)
    (acts : List (StartAction TIn TOut)) (onStartOk d1 d2 d3 : Bool)
    (h1 : s0.started = false) (hin : s0.inbound = []) (hout : s0.outbound = []) :
    ∀ e, (startInternal s0 acts onStartOk d1 d2 d3).result = .error e →
      (startInternal s0 acts onStartOk d1 d2 d3).state.inbound = [] ∧
      (startInternal s0 acts onStartOk d1 d2 d3).state.outbound = [] := by
  suffices key : ∀ o : StartOutcome TIn TOut,
      startInternal s0 acts onStartOk d1 d2 d3 = o → ∀ e, o.result = .error e →
      o.state.inbound = [] ∧ o.state.outbound = [] from
    fun e he => key _ rfl e he
  intro o heq e hres
  simp only [startInternal, h1, Bool.false_eq_true, if_false] at heq
  split at heq
  · subst heq; exact ⟨hin, hout⟩
  · split at heq
    · subst heq; exact ⟨rfl, rfl⟩
    · split at heq
      · subst heq; exact ⟨rfl, rfl⟩
      · rw [← heq]
        exact startFlushes_buffers_empty _ _ _ _ _

/-- Witness for C9: a message buffered while starting is discarded when a
dispose call aborts the start. -/
theorem start_failure_clears_buffers_witness :
    (startInternal cleanNodeExample
        [StartAction.recv ⟨9, "p", 2, 5, 42⟩, StartAction.callDispose]
        true false false false).state.inbound = [] ∧
    (startInternal cleanNodeExample
        [StartAction.recv ⟨9, "p", 2, 5, 42⟩, StartAction.callDispose]
        true false false false).state.outbound = [] :=
  start_failure_clears_buffers cleanNodeExample
    [StartAction.recv ⟨9, "p", 2, 5, 42⟩, StartAction.callDispose]
    true false false false rfl rfl rfl
    (.disposedDuringStart "n") rfl

/-- Claim C7: On a started (not disposed, not aborted) Unit, `receive` resolves
successfully whatever the process hook does; a hook failure is not propagated
but logged with the message and node identifiers. -/
theorem receive_catches_hook_failure (s : NodeState TIn TOut) (hookOk : Bool)
    (m : Message TIn) (hs : s.started = true) (hd : s.disposed = false)
    (ha : s.aborted = false) :
    receive s hookOk m =
      (s, .ok (), if hookOk then [] else [⟨s.name, s.id, m.id, m.nodeName, m.nodeId⟩]) := by
  cases hookOk <;> simp [receive, hs, hd, ha]

/-- Witness for C7: a failing hook still yields a resolved `receive`, with the
failure logged under the message/node identifiers. -/
theorem receive_catches_hook_failure_witness :
    receive startedNodeExample false ⟨9, "p", 2, 5, 42⟩ =
      (startedNodeExample, .ok (), [⟨"n", 1, 9, "p", 2⟩]) := by
  rw [receive_catches_hook_failure startedNodeExample false _ rfl rfl rfl]
  rfl

/-- Claim C10: `dispatch` on a Unit that was never started, is not starting, and
is not disposed/aborted raises `has not been started` (no silent no-op, no
buffering). -/
theorem dispatch_requires_started (s : NodeState TIn TOut) (data : TOut)
    (freshId : Nat) (now : Int) (time : Option Int)
    (h1 : s.started = false) (h2 : s.starting = false)
    (h3 : s.disposed = false) (h4 : s.aborted = false) :
    dispatchInternal s data freshId now time = (s, .error (.notStarted s.name), []) := by
  simp [dispatchInternal, h1, h2, h3, h4]

/-- Witness for C10. -/
theorem dispatch_requires_started_witness :
    dispatchInternal cleanNodeExample 42 9 100 none =
      (cleanNodeExample, .error (.notStarted "n"), []) :=
  dispatch_requires_started cleanNodeExample 42 9 100 none rfl rfl rfl rfl

/-- Every further `dispose()` call on a node with a settled dispose returns
the memoized outcome and changes nothing. -/
lemma disposeCalls_memoized (s : NodeState TIn TOut) (o : Bool)
    (hm : s.disposeMemo = some o) (ps : List Bool) :
    disposeCalls s ps = (s, List.replicate ps.length o) := by
  induction ps with
  | nil => simp [disposeCalls]
  | cons p rest ih => simp [disposeCalls, disposeCall, hm, ih, List.replicate_succ]

/-- Claim C6: Any number of `dispose()` calls on a Unit execute the teardown
hook exactly once, every caller observes the same settled outcome (that of
the first call's teardown), and the Unit is permanently marked disposed even
when the teardown hook fails (`p = false`). -/
theorem dispose_idempotent_single_teardown (s0 : NodeState TIn TOut)
    (h1 : s0.disposeMemo = none) (h2 : s0.teardownRuns = 0)
    (p : Bool) (rest : List Bool) :
    (disposeCalls s0 (p :: rest)).1.teardownRuns = 1 ∧
    (disposeCalls s0 (p :: rest)).1.disposed = true ∧
    (disposeCalls s0 (p :: rest)).2 = List.replicate (rest.length + 1) p := by
  have hstep : disposeCall s0 p =
      ({ s0 with disposed := true, aborted := true, inbound := [], outbound := [],
                 teardownRuns := s0.teardownRuns + 1, disposeMemo := some p }, p) := by
    simp [disposeCall, h1]
  simp [disposeCalls, hstep, disposeCalls_memoized, h2, List.replicate_succ]

/-- Witness for C6: three dispose calls, the first with a failing teardown —
one teardown run, all callers observe the same rejected outcome, the node is
disposed. -/
theorem dispose_idempotent_single_teardown_witness :
    (disposeCalls cleanNodeExample [false, true, true]).1.teardownRuns = 1 ∧
    (disposeCalls cleanNodeExample [false, true, true]).1.disposed = true ∧
    (disposeCalls cleanNodeExample [false, true, true]).2 =
      List.replicate 3 false := by
  have h := dispose_idempotent_single_teardown cleanNodeExample rfl rfl false [true, true]
  simpa using h

/-- Claim C8, counterexample: The claim asserts that adding wiring via
`register` raises a usage error once the Unit is started.  In the source,
`Node.register` performs no lifecycle check and has no failure path: on this
started node — a state `assertBuildTime` would reject — `register` simply
records the new consumer and returns. -/
theorem register_unguarded_counterexample :
    register startedNodeExample 7 = { startedNodeExample with consumers := [7] } ∧
    assertBuildTime startedNodeExample "register" =
      .error (.alreadyStarted "n" "register") :=
  ⟨rfl, rfl⟩

/-- Claim C8, amended: Adding children to a composite (`addChildBuildTime`) is
guarded by `assertBuildTime` and raises a usage error whenever the Unit is
started, starting, disposed or aborted; adding wiring via `Node.register`
performs no such check and always succeeds, recording the consumer. -/
theorem mutation_guard_amended :
    (∀ (p : ParallelNodeState TIn TOut) (cid : Nat),
      p.base.started = true ∨ p.base.starting = true ∨
      p.base.disposed = true ∨ p.base.aborted = true →
      ∃ e, addChildBuildTime p cid = .error e)
  ∧ (∀ (s : NodeState TIn TOut) (cid : Nat), cid ∈ (register s cid).consumers) := by
  constructor
  · intro p cid h
    have hassert : ∃ e, assertBuildTime p.base "add child" = .error e := by
      unfold assertBuildTime
      rcases hd : p.base.disposed <;> rcases ha : p.base.aborted <;>
        rcases hs : p.base.started <;> rcases hg : p.base.starting <;> simp_all
    rcases hassert with ⟨e, he⟩
    exact ⟨e, by simp [addChildBuildTime, he]⟩
  · intro s cid
    unfold register
    split
    · rename_i hc
      simpa using hc
    · simp

/-- Witness for the amended C8. -/
theorem mutation_guard_amended_witness :
    (∃ e, addChildBuildTime (⟨startedNodeExample, []⟩ : ParallelNodeState Nat Nat) 5 =
      .error e)
  ∧ 5 ∈ (register startedNodeExample 5).consumers :=
  ⟨mutation_guard_amended.1 ⟨startedNodeExample, []⟩ 5 (Or.inl rfl),
   mutation_guard_amended.2 startedNodeExample 5⟩

/-! ## The Orchestrator (`src/Pipeline.ts`)

Anchors/nodes are values of a type `α` with decidable equality (object
identity).  `anchorOf` is `getUltimateAnchor` (the chase of `ownerOf` links);
`deps` the `(provider, consumer)` instance pairs obtained from the
`dependsOn` declarations after ctor resolution; `wirings` the
`(producer, consumer)` pairs read off `getDownstreamNodes()` and restricted
to managed nodes; `nameOf` renders `node.name`. -/

section Orchestrator

variable {α : Type} [DecidableEq α]

/-- JS `Set` insertion: keep first occurrence, preserve insertion order. -/
def insertUnique (l : List α) (x : α) : List α :=
  if x ∈ l then l else l ++ [x]

/-- The `edges`/`indeg`/`outdeg` triple maintained by
`Pipeline.buildDependencyGraph`: `edges` as a duplicate-free list of
(src, dst) pairs meaning "src must start before dst", `indeg`/`outdeg` as
count maps (absent keys read as 0, hence total functions). -/
structure GraphData (α : Type) where
  edges : List (α × α)
  indeg : α → Int
  outdeg : α → Int

/-- Add an edge unless already present, bumping `indeg`/`outdeg`. -/
def addEdge (g : GraphData α) (src dst : α) : GraphData α :=
  if (src, dst) ∈ g.edges then g
  else { edges := g.edges ++ [(src, dst)],
         indeg := fun v => if v = dst then g.indeg v + 1 else g.indeg v,
         outdeg := fun v => if v = src then g.outdeg v + 1 else g.outdeg v }

/-- Model of `Pipeline.buildDependencyGraph`: declared-dependency edges
`providerAnchor → consumerAnchor`, then wiring edges
`consumerAnchor → producerAnchor`; edges whose two endpoints resolve to the
same anchor are discarded. -/
def buildDependencyGraph (anchorOf : α → α) (deps wirings : List (α × α)) :
    GraphData α :=
  let g0 : GraphData α := { edges := [], indeg := fun _ => 0, outdeg := fun _ => 0 }
  let g1 := deps.foldl (fun g pc =>
      let src := anchorOf pc.1
      let dst := anchorOf pc.2
      if src = dst then g else addEdge g src dst) g0
  wirings.foldl (fun g w =>
      let src := anchorOf w.2
      let dst := anchorOf w.1
      if src = dst then g else addEdge g src dst) g1

/-- Successors of `u` in the edge list (`edges.get(n)` in the source). -/
def succsOf (edges : List (α × α)) (u : α) : List α :=
  (edges.filter (fun e => e.1 = u)).map (·.2)

/-- The inner `for (const v of outs)` loop of `kahnTopoSort`: decrement each
successor's in-degree, enqueueing it when the new value is exactly 0. -/
def kahnVisit (q : List α) (indeg : α → Int) : List α → List α × (α → Int)
  | [] => (q, indeg)
  | v :: rest =>
      let d := indeg v - 1
      kahnVisit (if d = 0 then q ++ [v] else q)
        (fun w => if w = v then d else indeg w) rest

/-- The `while (q.length)` loop of `kahnTopoSort`: pop the queue head, emit
it, visit its successors.  The JS loop terminates because (for the in-degree
maps the builder produces) every node is enqueued at most once, so
`nodes.length` bounds the number of iterations and serves as fuel. -/
def kahnLoop (edges : List (α × α)) : Nat → List α → (α → Int) → List α → List α
  | 0, _, _, out => out
  | _ + 1, [], _, out => out
  | fuel + 1, u :: q, indeg, out =>
      let (q2, indeg2) := kahnVisit q indeg (succsOf edges u)
      kahnLoop edges fuel q2 indeg2 (out ++ [u])

/-- Model of `Pipeline.kahnTopoSort`: seed the queue with the in-degree-0 nodes in
`nodes` order, run the loop, and fail — reporting the unemitted (stuck)
anchors — when not every node was emitted. -/
def kahnTopoSort (nodes : List α) (edges : List (α × α)) (indeg : α → Int) :
    Except (List α) (List α) :=
  let q0 := nodes.filter (fun n => indeg n = 0)
  let out := kahnLoop edges nodes.length q0 indeg []
  if out.length = nodes.length then .ok out
  else .error (nodes.filter (fun n => n ∉ out))

/-- The data `Pipeline.build()` computes. -/
structure BuildResult (α : Type) where
  anchors : List α
  rootAnchors : List α
  keepAliveAnchors : List α
  graph : GraphData α
  topo : List α
  activeTopo : List α

/-- Model of `Pipeline.build()` (after `collect`): anchors of the managed set (in Set
insertion order), root and keep-alive anchors, the dependency graph, the
topological order, and the active filter (explicit-root anchor, keep-alive
anchor, or nonzero degree). -/
def pipelineBuild (allNodes roots keepAliveRoots : List α) (anchorOf : α → α)
    (deps wirings : List (α × α)) : Except (List α) (BuildResult α) :=
  let anchors := allNodes.foldl (fun acc n => insertUnique acc (anchorOf n)) []
  let rootAnchors := roots.foldl (fun acc n => insertUnique acc (anchorOf n)) []
  let keepAliveAnchors :=
    keepAliveRoots.foldl (fun acc n => insertUnique acc (anchorOf n)) []
  let g := buildDependencyGraph anchorOf deps wirings
  match kahnTopoSort anchors g.edges g.indeg with
  | .error stuck => .error stuck
  | .ok topo =>
      .ok { anchors := anchors, rootAnchors := rootAnchors,
            keepAliveAnchors := keepAliveAnchors, graph := g, topo := topo,
            activeTopo := topo.filter (fun a =>
              a ∈ rootAnchors ∨ a ∈ keepAliveAnchors ∨
              ¬ (g.indeg a + g.outdeg a = 0)) }

/-- Errors surfaced by `Pipeline.start()`: the dependency-cycle error (listing
the stuck anchors by name) thrown by the build, or the re-raised failure of
an anchor's `start()`. -/
inductive StartErr (α : Type) where
  | cycle (stuckNames : List String)
  | anchorFailed (a : α)

/-- Outcome of a `Pipeline.start()` run: the anchors started successfully (in
order), the anchors disposed by the rollback (in order), and the settled
result. -/
structure RunResult (α : Type) where
  started : List α
  rolledBack : List α
  result : Except (StartErr α) Unit

/-- The `for (const a of this.activeTopo) await a.start()` loop: returns the
successfully started prefix and the first failing anchor, if any. -/
def startLoop (startOk : α → Bool) : List α → List α → List α × Option α
  | acc, [] => (acc, none)
  | acc, a :: rest =>
      if startOk a then startLoop startOk (acc ++ [a]) rest else (acc, some a)

/-- Model of `Pipeline.start()`: build (a cycle aborts before anything starts), then
start the active anchors in order; on a failure, dispose the started prefix
in reverse order — each dispose in `try {} catch {}`, so dispose outcomes
cannot influence the result — and re-raise the original failure. -/
def pipelineStart (allNodes roots keepAliveRoots : List α) (anchorOf : α → α)
    (deps wirings : List (α × α)) (nameOf : α → String) (startOk : α → Bool) :
    RunResult α :=
  match pipelineBuild allNodes roots keepAliveRoots anchorOf deps wirings with
  | .error stuck =>
      { started := [], rolledBack := [], result := .error (.cycle (stuck.map nameOf)) }
  | .ok b =>
      match startLoop startOk [] b.activeTopo with
      | (acc, none) => { started := acc, rolledBack := [], result := .ok () }
      | (acc, some f) =>
          { started := acc, rolledBack := acc.reverse,
            result := .error (.anchorFailed f) }

/-! ### Kahn correctness -/

/-- Predecessors of `v` in the edge list. -/
def predsOf (edges : List (α × α)) (v : α) : List α :=
  (edges.filter (fun e => e.2 = v)).map (·.1)

/-- In-degree of `v`: the number of edges into `v`. -/
def inDeg (edges : List (α × α)) (v : α) : Nat := (predsOf edges v).length

/-- How many times `v` gets decremented after popping the nodes of `l`:
one per edge from a popped node into `v`. -/
def decBy (edges : List (α × α)) (l : List α) (v : α) : Nat :=
  (l.filter (fun u => (u, v) ∈ edges)).length

lemma mem_predsOf {edges : List (α × α)} {u v : α} :
    u ∈ predsOf edges v ↔ (u, v) ∈ edges := by
  constructor
  · intro h
    rcases List.mem_map.1 h with ⟨e, he, hu⟩
    rcases List.mem_filter.1 he with ⟨hmem, hv⟩
    have hv' : e.2 = v := by simpa using hv
    have he2 : e = (u, v) := Prod.ext_iff.2 ⟨hu, hv'⟩
    rwa [he2] at hmem
  · intro h
    exact List.mem_map.2 ⟨(u, v), List.mem_filter.2 ⟨h, by simp⟩, rfl⟩

lemma mem_succsOf {edges : List (α × α)} {u v : α} :
    v ∈ succsOf edges u ↔ (u, v) ∈ edges := by
  constructor
  · intro h
    rcases List.mem_map.1 h with ⟨e, he, hv⟩
    rcases List.mem_filter.1 he with ⟨hmem, hu⟩
    have hu' : e.1 = u := by simpa using hu
    have he2 : e = (u, v) := Prod.ext_iff.2 ⟨hu', hv⟩
    rwa [he2] at hmem
  · intro h
    exact List.mem_map.2 ⟨(u, v), List.mem_filter.2 ⟨h, by simp⟩, rfl⟩

lemma succsOf_nodup {edges : List (α × α)} (h : edges.Nodup) (u : α) :
    (succsOf edges u).Nodup := by
  apply List.Nodup.map_on _ (h.filter _)
  intro x hx y hy hxy
  have hx1 : x.1 = u := by simpa using (List.mem_filter.1 hx).2
  have hy1 : y.1 = u := by simpa using (List.mem_filter.1 hy).2
  exact Prod.ext_iff.2 ⟨hx1.trans hy1.symm, hxy⟩

lemma predsOf_nodup {edges : List (α × α)} (h : edges.Nodup) (v : α) :
    (predsOf edges v).Nodup := by
  apply List.Nodup.map_on _ (h.filter _)
  intro x hx y hy hxy
  have hx2 : x.2 = v := by simpa using (List.mem_filter.1 hx).2
  have hy2 : y.2 = v := by simpa using (List.mem_filter.1 hy).2
  exact Prod.ext_iff.2 ⟨hxy, hx2.trans hy2.symm⟩

lemma decBy_append_singleton (edges : List (α × α)) (l : List α) (u v : α) :
    decBy edges (l ++ [u]) v =
      decBy edges l v + (if (u, v) ∈ edges then 1 else 0) := by
  by_cases h : (u, v) ∈ edges <;> simp [decBy, List.filter_append, h]

lemma decBy_le_inDeg {edges : List (α × α)} {l : List α} (hl : l.Nodup) (v : α) :
    decBy edges l v ≤ inDeg edges v := by
  have hsub : l.filter (fun u => (u, v) ∈ edges) ⊆ predsOf edges v := by
    intro u hu
    exact mem_predsOf.2 (by simpa using (List.mem_filter.1 hu).2)
  have hle := (List.subperm_of_subset (hl.filter _) hsub).length_le
  simpa [decBy, inDeg] using hle

lemma decBy_eq_inDeg_iff {edges : List (α × α)} {l : List α}
    (hE : edges.Nodup) (hl : l.Nodup) (v : α) :
    decBy edges l v = inDeg edges v ↔ ∀ u, (u, v) ∈ edges → u ∈ l := by
  constructor
  · intro h u hu
    have hsub : l.filter (fun u => (u, v) ∈ edges) ⊆ predsOf edges v := fun x hx =>
      mem_predsOf.2 (by simpa using (List.mem_filter.1 hx).2)
    have hperm := (List.subperm_of_subset (hl.filter _) hsub).perm_of_length_le
      (by simpa [decBy, inDeg] using h.ge)
    have hmem : u ∈ l.filter (fun u => (u, v) ∈ edges) :=
      hperm.mem_iff.2 (mem_predsOf.2 hu)
    exact (List.mem_filter.1 hmem).1
  · intro h
    refine le_antisymm (decBy_le_inDeg hl v) ?_
    have hsub : predsOf edges v ⊆ l.filter (fun u => (u, v) ∈ edges) := by
      intro u hu
      exact List.mem_filter.2 ⟨h u (mem_predsOf.1 hu), by simpa using mem_predsOf.1 hu⟩
    have hle := (List.subperm_of_subset (predsOf_nodup hE v) hsub).length_le
    simpa [decBy, inDeg] using hle

/-- Characterization of the inner successor loop: each visited node's
in-degree drops by one, and exactly the visited nodes whose in-degree was 1
are appended to the queue, in visit order. -/
lemma kahnVisit_eq (vs : List α) (hvs : vs.Nodup) (q : List α) (indeg : α → Int) :
    kahnVisit q indeg vs =
      (q ++ vs.filter (fun x => indeg x = 1),
       fun w => if w ∈ vs then indeg w - 1 else indeg w) := by
  induction vs generalizing q indeg with
  | nil =>
      have hfn : (fun w => if w ∈ ([] : List α) then indeg w - 1 else indeg w) = indeg := by
        funext w; simp
      simp [kahnVisit, hfn]
  | cons v rest ih =>
      have hv : v ∉ rest := (List.nodup_cons.1 hvs).1
      have hrest : rest.Nodup := (List.nodup_cons.1 hvs).2
      simp only [kahnVisit]
      rw [ih hrest]
      have hfn : (fun w =>
          if w ∈ rest then (if w = v then indeg v - 1 else indeg w) - 1
          else if w = v then indeg v - 1 else indeg w) =
          fun w => if w ∈ v :: rest then indeg w - 1 else indeg w := by
        funext w
        by_cases hwr : w ∈ rest
        · have hwv : w ≠ v := fun he => hv (he ▸ hwr)
          simp [hwr, hwv]
        · by_cases hwv : w = v
          · subst hwv
            simp [hwr]
          · simp [hwr, hwv]
      have hfilter : rest.filter (fun x => (if x = v then indeg v - 1 else indeg x) = 1) =
          rest.filter (fun x => indeg x = 1) := by
        apply List.filter_congr
        intro x hx
        have hxv : x ≠ v := fun he => hv (he ▸ hx)
        simp [hxv]
      have hq : (if indeg v - 1 = 0 then q ++ [v] else q) ++
          rest.filter (fun x => indeg x = 1) =
          q ++ (v :: rest).filter (fun x => indeg x = 1) := by
        by_cases hone : indeg v = 1
        · have : indeg v - 1 = 0 := by omega
          simp [this, hone, List.filter_cons]
        · have : ¬ (indeg v - 1 = 0) := by omega
          simp [this, hone, List.filter_cons]
      rw [hfn, hfilter, hq]

/-- Well-formedness of the graph `Pipeline.build()` hands to the sorter:
distinct anchors, duplicate-free self-loop-free edges between anchors. -/
structure KahnWF (nodes : List α) (edges : List (α × α)) : Prop where
  nodesNodup : nodes.Nodup
  edgesNodup : edges.Nodup
  memL : ∀ e ∈ edges, e.1 ∈ nodes
  memR : ∀ e ∈ edges, e.2 ∈ nodes
  noSelf : ∀ e ∈ edges, e.1 ≠ e.2

/-- Loop invariant of `kahnTopoSort`: `out` is the emitted prefix, `q` the
pending queue; together they are duplicate-free nodes; `indeg` holds the
original in-degree minus one per emitted predecessor; everything enqueued has
all its predecessors emitted (for emitted nodes: emitted strictly earlier);
and every node whose count reached 0 has been enqueued. -/
structure KahnInv (nodes : List α) (edges : List (α × α))
    (q : List α) (indeg : α → Int) (out : List α) : Prop where
  nodup : (out ++ q).Nodup
  subset : ∀ x ∈ out ++ q, x ∈ nodes
  indegEq : ∀ v, indeg v = (inDeg edges v : Int) - (decBy edges out v : Int)
  qPreds : ∀ v ∈ q, ∀ u, (u, v) ∈ edges → u ∈ out
  orderOk : ∀ u v, (u, v) ∈ edges → v ∈ out →
    u ∈ out ∧ out.indexOf u < out.indexOf v
  complete : ∀ v ∈ nodes, indeg v = 0 → v ∈ out ++ q

lemma kahnInv_init {nodes : List α} {edges : List (α × α)}
    (hWF : KahnWF nodes edges) (indeg : α → Int)
    (hind : ∀ v, indeg v = (inDeg edges v : Int)) :
    KahnInv nodes edges (nodes.filter (fun n => indeg n = 0)) indeg [] := by
  constructor
  · simpa using hWF.nodesNodup.filter _
  · intro x hx
    rw [List.nil_append] at hx
    exact List.mem_of_mem_filter hx
  · intro v
    simp [hind v, decBy]
  · intro v hv u hu
    exfalso
    have h0 : indeg v = 0 := by simpa using (List.mem_filter.1 hv).2
    have hz : inDeg edges v = 0 := by
      have := hind v
      omega
    have hu' : u ∈ predsOf edges v := mem_predsOf.2 hu
    have hlen : (predsOf edges v).length = 0 := hz
    rw [List.length_eq_zero] at hlen
    rw [hlen] at hu'
    cases hu'
  · intro u v _ hv
    cases hv
  · intro v hv h0
    rw [List.nil_append]
    refine List.mem_filter.2 ⟨hv, ?_⟩
    simpa using h0

/-- Preservation of the Kahn invariant by one `while`-loop iteration: pop
`u0`, emit it, decrement its successors, enqueue those reaching 0. -/
lemma kahnInv_step {nodes : List α} {edges : List (α × α)}
    (hWF : KahnWF nodes edges) (u0 : α) (q : List α) (indeg : α → Int)
    (out : List α) (hInv : KahnInv nodes edges (u0 :: q) indeg out) :
    KahnInv nodes edges
      (q ++ (succsOf edges u0).filter (fun x => indeg x = 1))
      (fun w => if w ∈ succsOf edges u0 then indeg w - 1 else indeg w)
      (out ++ [u0]) := by
  have hnd := hInv.nodup
  rw [List.nodup_append] at hnd
  obtain ⟨houtN, hu0qN, hdisj⟩ := hnd
  have hu0q : u0 ∉ q := (List.nodup_cons.1 hu0qN).1
  have hqN : q.Nodup := (List.nodup_cons.1 hu0qN).2
  have hu0out : u0 ∉ out := fun h => hdisj h (List.mem_cons_self u0 q)
  have houtu0N : (out ++ [u0]).Nodup := by
    rw [List.nodup_append]
    refine ⟨houtN, List.nodup_singleton u0, ?_⟩
    intro a ha hb
    rw [List.mem_singleton] at hb
    subst hb
    exact hu0out ha
  have hallpred : ∀ x, (∀ u, (u, x) ∈ edges → u ∈ out) → indeg x = 0 := by
    intro x hx
    have hdec : decBy edges out x = inDeg edges x :=
      (decBy_eq_inDeg_iff hWF.edgesNodup houtN x).2 hx
    rw [hInv.indegEq x, hdec]
    exact sub_self _
  have hnewly_mem : ∀ x ∈ (succsOf edges u0).filter (fun x => indeg x = 1),
      x ∈ succsOf edges u0 ∧ indeg x = 1 := by
    intro x hx
    exact ⟨List.mem_of_mem_filter hx, by simpa using (List.mem_filter.1 hx).2⟩
  have hfresh : ∀ x ∈ (succsOf edges u0).filter (fun x => indeg x = 1),
      x ∉ out ∧ x ≠ u0 ∧ x ∉ q := by
    intro x hx
    obtain ⟨hxvs, hx1⟩ := hnewly_mem x hx
    have hedge : (u0, x) ∈ edges := mem_succsOf.1 hxvs
    refine ⟨?_, ?_, ?_⟩
    · intro hxo
      have h0 := hallpred x (fun u hu => (hInv.orderOk u x hu hxo).1)
      rw [hx1] at h0
      omega
    · intro heq
      subst heq
      exact hWF.noSelf _ hedge rfl
    · intro hxq
      have h0 := hallpred x (hInv.qPreds x (List.mem_cons_of_mem _ hxq))
      rw [hx1] at h0
      omega
  have hnewlyN : ((succsOf edges u0).filter (fun x => indeg x = 1)).Nodup :=
    (succsOf_nodup hWF.edgesNodup u0).filter _
  constructor
  · have hperm : (out ++ [u0]) ++ (q ++ (succsOf edges u0).filter (fun x => indeg x = 1)) =
        (out ++ u0 :: q) ++ (succsOf edges u0).filter (fun x => indeg x = 1) := by
      simp
    rw [hperm, List.nodup_append]
    refine ⟨hInv.nodup, hnewlyN, ?_⟩
    intro a ha hb
    obtain ⟨h1, h2, h3⟩ := hfresh a hb
    rcases List.mem_append.1 ha with h | h
    · exact h1 h
    · rcases List.mem_cons.1 h with h | h
      · exact h2 h
      · exact h3 h
  · intro x hx
    rcases List.mem_append.1 hx with h | h
    · rcases List.mem_append.1 h with h' | h'
      · exact hInv.subset x (List.mem_append.2 (Or.inl h'))
      · rw [List.mem_singleton] at h'
        subst h'
        exact hInv.subset x (List.mem_append.2 (Or.inr (List.mem_cons_self _ _)))
    · rcases List.mem_append.1 h with h' | h'
      · exact hInv.subset x (List.mem_append.2 (Or.inr (List.mem_cons_of_mem _ h')))
      · obtain ⟨hxvs, _⟩ := hnewly_mem x h'
        exact hWF.memR _ (mem_succsOf.1 hxvs)
  · intro v
    show (if v ∈ succsOf edges u0 then indeg v - 1 else indeg v) =
      (inDeg edges v : Int) - (decBy edges (out ++ [u0]) v : Int)
    rw [decBy_append_singleton]
    by_cases hv : v ∈ succsOf edges u0
    · have he : (u0, v) ∈ edges := mem_succsOf.1 hv
      rw [if_pos hv, if_pos he, hInv.indegEq v]
      push_cast
      ring
    · have he : (u0, v) ∉ edges := fun h => hv (mem_succsOf.2 h)
      rw [if_neg hv, if_neg he, hInv.indegEq v]
      push_cast
      ring
  · intro v hv u hu
    rcases List.mem_append.1 hv with h | h
    · exact List.mem_append.2
        (Or.inl (hInv.qPreds v (List.mem_cons_of_mem _ h) u hu))
    · obtain ⟨hxvs, hx1⟩ := hnewly_mem v h
      have hedge : (u0, v) ∈ edges := mem_succsOf.1 hxvs
      have h1 : (inDeg edges v : Int) - (decBy edges out v : Int) = 1 := by
        rw [← hInv.indegEq v]
        exact hx1
      have h2 : decBy edges (out ++ [u0]) v = inDeg edges v := by
        rw [decBy_append_singleton, if_pos hedge]
        omega
      exact (decBy_eq_inDeg_iff hWF.edgesNodup houtu0N v).1 h2 u hu
  · intro a b hab hb
    rcases List.mem_append.1 hb with h | h
    · obtain ⟨ha, hlt⟩ := hInv.orderOk a b hab h
      refine ⟨List.mem_append.2 (Or.inl ha), ?_⟩
      rw [List.indexOf_append_of_mem ha, List.indexOf_append_of_mem h]
      exact hlt
    · rw [List.mem_singleton] at h
      subst h
      have ha : a ∈ out := hInv.qPreds b (List.mem_cons_self _ _) a hab
      refine ⟨List.mem_append.2 (Or.inl ha), ?_⟩
      rw [List.indexOf_append_of_mem ha, List.indexOf_append_of_not_mem hu0out]
      have hlen : out.indexOf a < out.length := List.indexOf_lt_length.2 ha
      simpa [List.indexOf_cons_self] using hlen
  · intro v hv h0
    have h0' : (if v ∈ succsOf edges u0 then indeg v - 1 else indeg v) = 0 := h0
    by_cases hvs : v ∈ succsOf edges u0
    · rw [if_pos hvs] at h0'
      have h1 : indeg v = 1 := by omega
      have hn : v ∈ (succsOf edges u0).filter (fun x => indeg x = 1) :=
        List.mem_filter.2 ⟨hvs, by simpa using h1⟩
      exact List.mem_append.2 (Or.inr (List.mem_append.2 (Or.inr hn)))
    · rw [if_neg hvs] at h0'
      have hmem := hInv.complete v hv h0'
      rcases List.mem_append.1 hmem with h | h
      · exact List.mem_append.2 (Or.inl (List.mem_append.2 (Or.inl h)))
      · rcases List.mem_cons.1 h with h | h
        · subst h
          exact List.mem_append.2
            (Or.inl (List.mem_append.2 (Or.inr (List.mem_singleton.2 rfl))))
        · exact List.mem_append.2 (Or.inr (List.mem_append.2 (Or.inl h)))

/-- Running the loop from an invariant state with enough fuel drains the
queue while preserving the invariant. -/
lemma kahnLoop_spec {nodes : List α} {edges : List (α × α)}
    (hWF : KahnWF nodes edges) :
    ∀ (fuel : Nat) (q : List α) (indeg : α → Int) (out : List α),
      KahnInv nodes edges q indeg out →
      nodes.length ≤ fuel + out.length →
      ∃ indegf, KahnInv nodes edges [] indegf (kahnLoop edges fuel q indeg out) := by
  intro fuel
  induction fuel with
  | zero =>
      intro q indeg out hInv hle
      have hsp := List.subperm_of_subset hInv.nodup hInv.subset
      have hlen := hsp.length_le
      rw [List.length_append] at hlen
      have hq : q = [] := List.length_eq_zero.1 (by omega)
      subst hq
      exact ⟨indeg, by simpa [kahnLoop] using hInv⟩
  | succ fuel ih =>
      intro q indeg out hInv hle
      cases q with
      | nil => exact ⟨indeg, by simpa [kahnLoop] using hInv⟩
      | cons u0 q' =>
          have hstep := kahnInv_step hWF u0 q' indeg out hInv
          have hvisit := kahnVisit_eq (succsOf edges u0)
            (succsOf_nodup hWF.edgesNodup u0) q' indeg
          simp only [kahnLoop, hvisit]
          exact ih _ _ _ hstep (by simp only [List.length_append,
            List.length_singleton] at hle ⊢; omega)

/-- Order correctness along reachability: if `b` was emitted, everything with
a path to `b` was emitted strictly earlier. -/
lemma kahnInv_transGen_lt {nodes : List α} {edges : List (α × α)}
    {indegf : α → Int} {out : List α}
    (hInv : KahnInv nodes edges [] indegf out) :
    ∀ a b, Relation.TransGen (fun x y => (x, y) ∈ edges) a b → b ∈ out →
      a ∈ out ∧ out.indexOf a < out.indexOf b := by
  intro a b h
  induction h with
  | single h => exact fun hb => hInv.orderOk _ _ h hb
  | tail h1 h2 ih =>
      intro hc
      obtain ⟨hb, hlt⟩ := hInv.orderOk _ _ h2 hc
      obtain ⟨ha, hlt'⟩ := ih hb
      exact ⟨ha, hlt'.trans hlt⟩

/-- A node of the graph left unemitted has an unemitted predecessor. -/
lemma kahnInv_final_missing {nodes : List α} {edges : List (α × α)}
    (hWF : KahnWF nodes edges) {indegf : α → Int} {out : List α}
    (hInv : KahnInv nodes edges [] indegf out) {v : α}
    (hv : v ∈ nodes) (hvo : v ∉ out) :
    ∃ u, (u, v) ∈ edges ∧ u ∈ nodes ∧ u ∉ out := by
  have h0 : indegf v ≠ 0 := fun h => hvo (by simpa using hInv.complete v hv h)
  have houtN : out.Nodup := by simpa using hInv.nodup
  have hne : decBy edges out v ≠ inDeg edges v := by
    intro he
    apply h0
    rw [hInv.indegEq v, he]
    exact sub_self _
  have hnall : ¬ ∀ u, (u, v) ∈ edges → u ∈ out := fun hall =>
    hne ((decBy_eq_inDeg_iff hWF.edgesNodup houtN v).2 hall)
  push_neg at hnall
  obtain ⟨u, hu, huo⟩ := hnall
  exact ⟨u, hu, hWF.memL _ hu, huo⟩

/-- If some graph node is unemitted, the edge relation has a cycle: the
unemitted set is finite and every member has a predecessor in it. -/
lemma exists_cycle_of_stuck {nodes : List α} {edges : List (α × α)}
    (hWF : KahnWF nodes edges) {indegf : α → Int} {out : List α}
    (hInv : KahnInv nodes edges [] indegf out) {v0 : α}
    (hv0 : v0 ∈ nodes) (hvo : v0 ∉ out) :
    ∃ w, Relation.TransGen (fun a b => (a, b) ∈ edges) w w := by
  have hpred : ∀ v, v ∈ nodes ∧ v ∉ out →
      ∃ u, (u ∈ nodes ∧ u ∉ out) ∧ (u, v) ∈ edges := by
    intro v hv
    obtain ⟨u, hu, hun, huo⟩ := kahnInv_final_missing hWF hInv hv.1 hv.2
    exact ⟨u, ⟨hun, huo⟩, hu⟩
  by_contra hnc
  push_neg at hnc
  let U : Finset α := (nodes.filter (fun x => x ∉ out)).toFinset
  have hUmem : ∀ x, x ∈ U ↔ x ∈ nodes ∧ x ∉ out := by
    intro x
    simp [U, List.mem_toFinset]
  let T := { x // x ∈ U }
  haveI : Fintype T := FinsetCoe.fintype U
  let r : T → T → Prop := fun a b =>
    Relation.TransGen (fun x y => (x, y) ∈ edges) a.1 b.1
  haveI : IsTrans T r := ⟨fun _ _ _ hab hbc => hab.trans hbc⟩
  haveI : IsIrrefl T r := ⟨fun a ha => hnc a.1 ha⟩
  have hwf : WellFounded r := Finite.wellFounded_of_trans_of_irrefl r
  obtain ⟨m, -, hm⟩ := hwf.has_min Set.univ
    ⟨⟨v0, (hUmem v0).2 ⟨hv0, hvo⟩⟩, trivial⟩
  obtain ⟨u, huU, hedge⟩ := hpred m.1 ((hUmem m.1).1 m.2)
  exact hm ⟨u, (hUmem u).2 huU⟩ trivial (Relation.TransGen.single hedge)

lemma kahnTopoSort_run {nodes : List α} {edges : List (α × α)}
    {indeg0 : α → Int} (hWF : KahnWF nodes edges)
    (hind : ∀ v, indeg0 v = (inDeg edges v : Int)) :
    ∃ indegf, KahnInv nodes edges [] indegf
      (kahnLoop edges nodes.length (nodes.filter (fun n => indeg0 n = 0))
        indeg0 []) :=
  kahnLoop_spec hWF nodes.length _ indeg0 [] (kahnInv_init hWF indeg0 hind)
    (by simp)

/-- When the sorter succeeds, it emits exactly the nodes, without duplicates,
and every edge goes from an earlier to a later position. -/
lemma kahnTopoSort_ok_spec {nodes : List α} {edges : List (α × α)}
    {indeg0 : α → Int} {out : List α} (hWF : KahnWF nodes edges)
    (hind : ∀ v, indeg0 v = (inDeg edges v : Int))
    (hok : kahnTopoSort nodes edges indeg0 = .ok out) :
    out.Nodup ∧ (∀ x, x ∈ out ↔ x ∈ nodes) ∧
    ∀ u v, (u, v) ∈ edges → u ∈ out ∧ out.indexOf u < out.indexOf v := by
  obtain ⟨indegf, hfin⟩ := kahnTopoSort_run hWF hind
  set out0 : List α := kahnLoop edges nodes.length
    (nodes.filter (fun n => indeg0 n = 0)) indeg0 [] with hout0def
  simp only [kahnTopoSort] at hok
  split at hok
  · rename_i hlen
    have heq : out0 = out := by simpa using hok
    subst heq
    have houtN : out0.Nodup := by simpa using hfin.nodup
    have hsub : out0 ⊆ nodes := fun x hx => hfin.subset x (by simpa using hx)
    have hperm := (List.subperm_of_subset houtN hsub).perm_of_length_le
      (le_of_eq hlen.symm)
    refine ⟨houtN, fun x => hperm.mem_iff, ?_⟩
    intro u v huv
    have hv : v ∈ out0 := hperm.mem_iff.2 (hWF.memR _ huv)
    exact hfin.orderOk u v huv hv
  · cases hok

/-- On an acyclic graph the sorter succeeds. -/
lemma kahnTopoSort_acyclic_ok {nodes : List α} {edges : List (α × α)}
    {indeg0 : α → Int} (hWF : KahnWF nodes edges)
    (hind : ∀ v, indeg0 v = (inDeg edges v : Int))
    (hacyc : ∀ w, ¬ Relation.TransGen (fun a b => (a, b) ∈ edges) w w) :
    ∃ out, kahnTopoSort nodes edges indeg0 = .ok out := by
  obtain ⟨indegf, hfin⟩ := kahnTopoSort_run hWF hind
  set out0 : List α := kahnLoop edges nodes.length
    (nodes.filter (fun n => indeg0 n = 0)) indeg0 [] with hout0def
  have hsup : ∀ v ∈ nodes, v ∈ out0 := by
    intro v hv
    by_contra hvo
    obtain ⟨w, hw⟩ := exists_cycle_of_stuck hWF hfin hv hvo
    exact hacyc w hw
  have houtN : out0.Nodup := by simpa using hfin.nodup
  have hsub : out0 ⊆ nodes := fun x hx => hfin.subset x (by simpa using hx)
  have h1 := (List.subperm_of_subset houtN hsub).length_le
  have h2 := (List.subperm_of_subset hWF.nodesNodup hsup).length_le
  have hlen : out0.length = nodes.length := le_antisymm h1 h2
  refine ⟨out0, ?_⟩
  simp only [kahnTopoSort]
  rw [if_pos hlen]

/-- On a cyclic graph the sorter fails, and the reported stuck set contains
every node lying on a cycle. -/
lemma kahnTopoSort_cyclic_error {nodes : List α} {edges : List (α × α)}
    {indeg0 : α → Int} (hWF : KahnWF nodes edges)
    (hind : ∀ v, indeg0 v = (inDeg edges v : Int)) {w : α}
    (hcyc : Relation.TransGen (fun a b => (a, b) ∈ edges) w w) :
    ∃ stuck, kahnTopoSort nodes edges indeg0 = .error stuck ∧ stuck ≠ [] ∧
      ∀ x, Relation.TransGen (fun a b => (a, b) ∈ edges) x x → x ∈ stuck := by
  obtain ⟨indegf, hfin⟩ := kahnTopoSort_run hWF hind
  set out0 : List α := kahnLoop edges nodes.length
    (nodes.filter (fun n => indeg0 n = 0)) indeg0 [] with hout0def
  have hx_prop : ∀ x, Relation.TransGen (fun a b => (a, b) ∈ edges) x x →
      x ∈ nodes ∧ x ∉ out0 := by
    intro x hx
    have hxn : x ∈ nodes := by
      cases hx with
      | single h => exact hWF.memL _ h
      | tail h1 h2 => exact hWF.memR _ h2
    refine ⟨hxn, ?_⟩
    intro hxo
    have hlt := (kahnInv_transGen_lt hfin x x hx hxo).2
    omega
  have hwn := hx_prop w hcyc
  have houtN : out0.Nodup := by simpa using hfin.nodup
  have hsub : out0 ⊆ nodes := fun x hx => hfin.subset x (by simpa using hx)
  have hne : out0.length ≠ nodes.length := by
    intro he
    have hperm := (List.subperm_of_subset houtN hsub).perm_of_length_le
      (le_of_eq he.symm)
    exact hwn.2 (hperm.mem_iff.2 hwn.1)
  refine ⟨nodes.filter (fun n => n ∉ out0), ?_, ?_, ?_⟩
  · simp only [kahnTopoSort]
    rw [if_neg hne]
  · intro hemp
    have hwmem : w ∈ nodes.filter (fun n => n ∉ out0) :=
      List.mem_filter.2 ⟨hwn.1, by simpa using hwn.2⟩
    rw [hemp] at hwmem
    cases hwmem
  · intro x hx
    have hxp := hx_prop x hx
    exact List.mem_filter.2 ⟨hxp.1, by simpa using hxp.2⟩

/-! ### Build-layer lemmas -/

lemma mem_insertUnique (l : List α) (y x : α) :
    x ∈ insertUnique l y ↔ x ∈ l ∨ x = y := by
  unfold insertUnique
  split
  · rename_i hy
    constructor
    · exact Or.inl
    · rintro (h | h)
      · exact h
      · subst h
        exact hy
  · simp

lemma insertUnique_nodup (l : List α) (y : α) (h : l.Nodup) :
    (insertUnique l y).Nodup := by
  unfold insertUnique
  split
  · exact h
  · rename_i hy
    rw [List.nodup_append]
    refine ⟨h, List.nodup_singleton _, ?_⟩
    intro a ha hb
    rw [List.mem_singleton] at hb
    subst hb
    exact hy ha

lemma foldl_insertUnique_nodup {β : Type} (f : β → α) (L : List β) :
    ∀ init : List α, init.Nodup →
      (L.foldl (fun acc n => insertUnique acc (f n)) init).Nodup := by
  induction L with
  | nil => exact fun init h => h
  | cons b rest ih =>
      intro init h
      exact ih _ (insertUnique_nodup init (f b) h)

lemma foldl_insertUnique_mem {β : Type} (f : β → α) (L : List β) :
    ∀ (init : List α) (x : α),
      x ∈ L.foldl (fun acc n => insertUnique acc (f n)) init ↔
        x ∈ init ∨ ∃ n ∈ L, f n = x := by
  induction L with
  | nil => simp
  | cons b rest ih =>
      intro init x
      rw [List.foldl_cons, ih, mem_insertUnique]
      constructor
      · rintro ((h | h) | ⟨n, hn, hfn⟩)
        · exact Or.inl h
        · exact Or.inr ⟨b, List.mem_cons_self _ _, h.symm⟩
        · exact Or.inr ⟨n, List.mem_cons_of_mem _ hn, hfn⟩
      · rintro (h | ⟨n, hn, hfn⟩)
        · exact Or.inl (Or.inl h)
        · rcases List.mem_cons.1 hn with h | h
          · subst h
            exact Or.inl (Or.inr hfn.symm)
          · exact Or.inr ⟨n, h, hfn⟩

/-- Invariant maintained by `buildDependencyGraph`: duplicate-free,
self-loop-free edges with a consistent in-degree map. -/
def GraphInv (g : GraphData α) : Prop :=
  g.edges.Nodup ∧ (∀ e ∈ g.edges, e.1 ≠ e.2) ∧
  ∀ v, g.indeg v = (inDeg g.edges v : Int)

lemma inDeg_append_singleton (edges : List (α × α)) (p : α × α) (v : α) :
    inDeg (edges ++ [p]) v = inDeg edges v + (if p.2 = v then 1 else 0) := by
  by_cases h : p.2 = v <;> simp [inDeg, predsOf, List.filter_append, h]

lemma addEdge_mem {g : GraphData α} {s d a b : α} :
    (a, b) ∈ (addEdge g s d).edges ↔ (a, b) ∈ g.edges ∨ (a = s ∧ b = d) := by
  unfold addEdge
  split
  · rename_i h
    constructor
    · exact Or.inl
    · rintro (hh | ⟨h1, h2⟩)
      · exact hh
      · subst h1
        subst h2
        exact h
  · simp [Prod.ext_iff]

lemma addEdge_inv {g : GraphData α} (hg : GraphInv g) {s d : α} (hne : s ≠ d) :
    GraphInv (addEdge g s d) := by
  unfold addEdge
  split
  · exact hg
  · rename_i hnm
    obtain ⟨hN, hS, hI⟩ := hg
    refine ⟨?_, ?_, ?_⟩
    · rw [List.nodup_append]
      refine ⟨hN, List.nodup_singleton _, ?_⟩
      intro a ha hb
      rw [List.mem_singleton] at hb
      subst hb
      exact hnm ha
    · intro e he
      rcases List.mem_append.1 he with h | h
      · exact hS e h
      · rw [List.mem_singleton] at h
        subst h
        exact hne
    · intro v
      show (if v = d then g.indeg v + 1 else g.indeg v) = _
      rw [inDeg_append_singleton]
      by_cases h : v = d
      · subst h
        rw [if_pos rfl, if_pos rfl, hI]
        push_cast
        ring
      · rw [if_neg h, if_neg (fun hh : d = v => h hh.symm), hI]
        push_cast
        ring

lemma foldl_buildEdges_inv {β : Type} (srcF dstF : β → α) (L : List β) :
    ∀ g : GraphData α, GraphInv g →
      GraphInv (L.foldl (fun g x => if srcF x = dstF x then g
        else addEdge g (srcF x) (dstF x)) g) := by
  induction L with
  | nil => exact fun g hg => hg
  | cons c rest ih =>
      intro g hg
      rw [List.foldl_cons]
      by_cases h : srcF c = dstF c
      · rw [if_pos h]
        exact ih g hg
      · rw [if_neg h]
        exact ih _ (addEdge_inv hg h)

lemma foldl_buildEdges_mem {β : Type} (srcF dstF : β → α) (L : List β) :
    ∀ (g : GraphData α) (a b : α),
      (a, b) ∈ (L.foldl (fun g x => if srcF x = dstF x then g
        else addEdge g (srcF x) (dstF x)) g).edges ↔
      (a, b) ∈ g.edges ∨ ∃ x ∈ L, srcF x = a ∧ dstF x = b ∧ a ≠ b := by
  induction L with
  | nil => simp
  | cons c rest ih =>
      intro g a b
      rw [List.foldl_cons]
      by_cases h : srcF c = dstF c
      · rw [if_pos h, ih]
        constructor
        · rintro (hh | ⟨x, hx, hsx, hdx, hne⟩)
          · exact Or.inl hh
          · exact Or.inr ⟨x, List.mem_cons_of_mem _ hx, hsx, hdx, hne⟩
        · rintro (hh | ⟨x, hx, hsx, hdx, hne⟩)
          · exact Or.inl hh
          · rcases List.mem_cons.1 hx with hx' | hx'
            · subst hx'
              exact absurd (hsx.symm.trans (h.trans hdx)) hne
            · exact Or.inr ⟨x, hx', hsx, hdx, hne⟩
      · rw [if_neg h, ih, addEdge_mem]
        constructor
        · rintro ((hh | ⟨h1, h2⟩) | ⟨x, hx, hsx, hdx, hne⟩)
          · exact Or.inl hh
          · subst h1
            subst h2
            exact Or.inr ⟨c, List.mem_cons_self _ _, rfl, rfl, h⟩
          · exact Or.inr ⟨x, List.mem_cons_of_mem _ hx, hsx, hdx, hne⟩
        · rintro (hh | ⟨x, hx, hsx, hdx, hne⟩)
          · exact Or.inl (Or.inl hh)
          · rcases List.mem_cons.1 hx with hx' | hx'
            · subst hx'
              exact Or.inl (Or.inr ⟨hsx.symm, hdx.symm⟩)
            · exact Or.inr ⟨x, hx', hsx, hdx, hne⟩

lemma buildDependencyGraph_inv (anchorOf : α → α) (deps wirings : List (α × α)) :
    GraphInv (buildDependencyGraph anchorOf deps wirings) := by
  unfold buildDependencyGraph
  refine foldl_buildEdges_inv (fun w => anchorOf w.2) (fun w => anchorOf w.1)
    wirings _ (foldl_buildEdges_inv (fun pc => anchorOf pc.1)
      (fun pc => anchorOf pc.2) deps _ ?_)
  refine ⟨List.nodup_nil, by simp, ?_⟩
  intro v
  simp [inDeg, predsOf]

/-- The anchor-level "must start before" relation the builder encodes:
provider anchor before consumer anchor (declared dependencies), and consumer
anchor before producer anchor (wiring); same-anchor pairs are discarded. -/
def depWireEdge (anchorOf : α → α) (deps wirings : List (α × α)) (a b : α) : Prop :=
  (∃ pc ∈ deps, anchorOf pc.1 = a ∧ anchorOf pc.2 = b ∧ a ≠ b) ∨
  (∃ w ∈ wirings, anchorOf w.2 = a ∧ anchorOf w.1 = b ∧ a ≠ b)

lemma buildDependencyGraph_mem (anchorOf : α → α) (deps wirings : List (α × α))
    (a b : α) :
    (a, b) ∈ (buildDependencyGraph anchorOf deps wirings).edges ↔
      depWireEdge anchorOf deps wirings a b := by
  unfold buildDependencyGraph depWireEdge
  rw [foldl_buildEdges_mem, foldl_buildEdges_mem]
  simp [or_comm]

lemma built_kahnWF (allNodes : List α) (anchorOf : α → α)
    (deps wirings : List (α × α))
    (hdeps : ∀ pc ∈ deps, pc.1 ∈ allNodes ∧ pc.2 ∈ allNodes)
    (hwire : ∀ w ∈ wirings, w.1 ∈ allNodes ∧ w.2 ∈ allNodes) :
    KahnWF (allNodes.foldl (fun acc n => insertUnique acc (anchorOf n)) [])
      (buildDependencyGraph anchorOf deps wirings).edges := by
  obtain ⟨hN, hS, hI⟩ := buildDependencyGraph_inv anchorOf deps wirings
  refine ⟨foldl_insertUnique_nodup _ _ [] List.nodup_nil, hN, ?_, ?_, hS⟩
  · intro e he
    have hmem := (buildDependencyGraph_mem anchorOf deps wirings e.1 e.2).1 he
    rw [foldl_insertUnique_mem]
    rcases hmem with ⟨pc, hpc, h1, _, _⟩ | ⟨w, hw, h1, _, _⟩
    · exact Or.inr ⟨pc.1, (hdeps pc hpc).1, h1⟩
    · exact Or.inr ⟨w.2, (hwire w hw).2, h1⟩
  · intro e he
    have hmem := (buildDependencyGraph_mem anchorOf deps wirings e.1 e.2).1 he
    rw [foldl_insertUnique_mem]
    rcases hmem with ⟨pc, hpc, _, h2, _⟩ | ⟨w, hw, _, h2, _⟩
    · exact Or.inr ⟨pc.2, (hdeps pc hpc).2, h2⟩
    · exact Or.inr ⟨w.1, (hwire w hw).1, h2⟩

lemma startLoop_all_ok (startOk : α → Bool) :
    ∀ (l : List α), (∀ a ∈ l, startOk a = true) →
    ∀ acc, startLoop startOk acc l = (acc ++ l, none) := by
  intro l
  induction l with
  | nil =>
      intro _ acc
      simp [startLoop]
  | cons a rest ih =>
      intro hall acc
      have ha := hall a (List.mem_cons_self _ _)
      simp only [startLoop, ha, if_true]
      rw [ih (fun x hx => hall x (List.mem_cons_of_mem _ hx))]
      simp

lemma startLoop_fail (startOk : α → Bool) :
    ∀ (pre : List α), (∀ a ∈ pre, startOk a = true) →
    ∀ (f : α), startOk f = false → ∀ (post acc : List α),
      startLoop startOk acc (pre ++ f :: post) = (acc ++ pre, some f) := by
  intro pre
  induction pre with
  | nil =>
      intro _ f hf post acc
      simp [startLoop, hf]
  | cons a rest ih =>
      intro hall f hf post acc
      have ha := hall a (List.mem_cons_self _ _)
      simp only [List.cons_append, startLoop, ha, if_true, List.append_eq]
      rw [ih (fun x hx => hall x (List.mem_cons_of_mem _ hx)) f hf post (acc ++ [a])]
      simp

/-- Dissection of a successful build: the topological order is exactly the
anchor set (duplicate-free) ordered so that every built edge points forward,
and `activeTopo` is its filter. -/
lemma pipelineBuild_ok_parts (allNodes roots keepAliveRoots : List α)
    (anchorOf : α → α) (deps wirings : List (α × α)) (b : BuildResult α)
    (hdeps : ∀ pc ∈ deps, pc.1 ∈ allNodes ∧ pc.2 ∈ allNodes)
    (hwire : ∀ w ∈ wirings, w.1 ∈ allNodes ∧ w.2 ∈ allNodes)
    (hbuild : pipelineBuild allNodes roots keepAliveRoots anchorOf deps wirings
      = .ok b) :
    b.topo.Nodup ∧ b.activeTopo.Nodup ∧
    (∀ x, x ∈ b.topo ↔
      x ∈ allNodes.foldl (fun acc n => insertUnique acc (anchorOf n)) []) ∧
    (∀ u v, (u, v) ∈ (buildDependencyGraph anchorOf deps wirings).edges →
      u ∈ b.topo ∧ b.topo.indexOf u < b.topo.indexOf v) ∧
    b.activeTopo = b.topo.filter (fun a =>
      a ∈ roots.foldl (fun acc n => insertUnique acc (anchorOf n)) [] ∨
      a ∈ keepAliveRoots.foldl (fun acc n => insertUnique acc (anchorOf n)) [] ∨
      ¬ ((buildDependencyGraph anchorOf deps wirings).indeg a +
         (buildDependencyGraph anchorOf deps wirings).outdeg a = 0)) := by
  have hWF := built_kahnWF allNodes anchorOf deps wirings hdeps hwire
  have hind := (buildDependencyGraph_inv anchorOf deps wirings).2.2
  simp only [pipelineBuild] at hbuild
  cases hkahn : kahnTopoSort
      (allNodes.foldl (fun acc n => insertUnique acc (anchorOf n)) [])
      (buildDependencyGraph anchorOf deps wirings).edges
      (buildDependencyGraph anchorOf deps wirings).indeg with
  | error stuck =>
      rw [hkahn] at hbuild
      cases hbuild
  | ok topo =>
      rw [hkahn] at hbuild
      injection hbuild with hb
      subst hb
      obtain ⟨hN, hmem, hord⟩ := kahnTopoSort_ok_spec hWF hind hkahn
      exact ⟨hN, hN.filter _, hmem, hord, rfl⟩

/-- Claim C3: If the start of an anchor in the computed order fails, every
anchor started before it (the prefix `pre`) is disposed in exact reverse
start order, the failing anchor is not among the started ones, and the
original failure is re-raised.  Rollback disposes inside `try {} catch {}`,
so — as `pipelineStart` shows by taking no dispose outcomes at all — dispose
errors cannot influence the outcome. -/
theorem start_failure_rolls_back_in_reverse
    (allNodes roots keepAliveRoots : List α) (anchorOf : α → α)
    (deps wirings : List (α × α)) (nameOf : α → String) (startOk : α → Bool)
    (b : BuildResult α)
    (hdeps : ∀ pc ∈ deps, pc.1 ∈ allNodes ∧ pc.2 ∈ allNodes)
    (hwire : ∀ w ∈ wirings, w.1 ∈ allNodes ∧ w.2 ∈ allNodes)
    (hbuild : pipelineBuild allNodes roots keepAliveRoots anchorOf deps wirings
      = .ok b)
    (pre post : List α) (f : α)
    (hshape : b.activeTopo = pre ++ f :: post)
    (hpre : ∀ a ∈ pre, startOk a = true)
    (hf : startOk f = false) :
    pipelineStart allNodes roots keepAliveRoots anchorOf deps wirings nameOf
        startOk =
      { started := pre, rolledBack := pre.reverse,
        result := .error (.anchorFailed f) } ∧
    f ∉ pre := by
  obtain ⟨-, hactN, -, -, -⟩ := pipelineBuild_ok_parts allNodes roots
    keepAliveRoots anchorOf deps wirings b hdeps hwire hbuild
  constructor
  · simp only [pipelineStart, hbuild]
    rw [hshape, startLoop_fail startOk pre hpre f hf post []]
    simp
  · intro hfpre
    rw [hshape, List.nodup_append] at hactN
    exact hactN.2.2 hfpre (List.mem_cons_self _ _)

/-- Claim C1: For every acyclic dependency/wiring graph over anchors, the order
computed by the build places every declared provider's anchor before its
consumer's anchor and every wiring-consumer's anchor before the
wiring-producer's anchor; for every cyclic graph, `start()` fails with the
cycle error naming the stuck anchors (which include every anchor on a
cycle), with no anchor started and no rollback performed. -/
theorem topo_order_and_cycle_failure
    (allNodes roots keepAliveRoots : List α) (anchorOf : α → α)
    (deps wirings : List (α × α)) (nameOf : α → String) (startOk : α → Bool)
    (hdeps : ∀ pc ∈ deps, pc.1 ∈ allNodes ∧ pc.2 ∈ allNodes)
    (hwire : ∀ w ∈ wirings, w.1 ∈ allNodes ∧ w.2 ∈ allNodes) :
    ((∀ w, ¬ Relation.TransGen (depWireEdge anchorOf deps wirings) w w) →
      ∃ b, pipelineBuild allNodes roots keepAliveRoots anchorOf deps wirings
          = .ok b ∧
        (∀ pc ∈ deps, anchorOf pc.1 ≠ anchorOf pc.2 →
          b.topo.indexOf (anchorOf pc.1) < b.topo.indexOf (anchorOf pc.2)) ∧
        (∀ w ∈ wirings, anchorOf w.2 ≠ anchorOf w.1 →
          b.topo.indexOf (anchorOf w.2) < b.topo.indexOf (anchorOf w.1)))
  ∧ ((∃ w, Relation.TransGen (depWireEdge anchorOf deps wirings) w w) →
      ∃ stuck : List α,
        pipelineStart allNodes roots keepAliveRoots anchorOf deps wirings
            nameOf startOk =
          { started := [], rolledBack := [],
            result := .error (.cycle (stuck.map nameOf)) } ∧
        stuck ≠ [] ∧
        ∀ x, Relation.TransGen (depWireEdge anchorOf deps wirings) x x →
          x ∈ stuck) := by
  have hWF := built_kahnWF allNodes anchorOf deps wirings hdeps hwire
  have hind := (buildDependencyGraph_inv anchorOf deps wirings).2.2
  have hrel : ∀ a b,
      (a, b) ∈ (buildDependencyGraph anchorOf deps wirings).edges ↔
      depWireEdge anchorOf deps wirings a b :=
    buildDependencyGraph_mem anchorOf deps wirings
  have htg : ∀ a b,
      Relation.TransGen
        (fun x y => (x, y) ∈ (buildDependencyGraph anchorOf deps wirings).edges)
        a b ↔
      Relation.TransGen (depWireEdge anchorOf deps wirings) a b := by
    intro a b
    constructor
    · exact Relation.TransGen.mono (fun x y h => (hrel x y).1 h)
    · exact Relation.TransGen.mono (fun x y h => (hrel x y).2 h)
  constructor
  · intro hacyc
    obtain ⟨out, hk⟩ := kahnTopoSort_acyclic_ok hWF hind
      (fun w hw => hacyc w ((htg w w).1 hw))
    have hspec := kahnTopoSort_ok_spec hWF hind hk
    refine ⟨{ anchors := allNodes.foldl (fun acc n => insertUnique acc (anchorOf n)) [],
              rootAnchors := roots.foldl (fun acc n => insertUnique acc (anchorOf n)) [],
              keepAliveAnchors :=
                keepAliveRoots.foldl (fun acc n => insertUnique acc (anchorOf n)) [],
              graph := buildDependencyGraph anchorOf deps wirings,
              topo := out,
              activeTopo := out.filter (fun a =>
                a ∈ roots.foldl (fun acc n => insertUnique acc (anchorOf n)) [] ∨
                a ∈ keepAliveRoots.foldl (fun acc n => insertUnique acc (anchorOf n)) [] ∨
                ¬ ((buildDependencyGraph anchorOf deps wirings).indeg a +
                   (buildDependencyGraph anchorOf deps wirings).outdeg a = 0)) },
            ?_, ?_, ?_⟩
    · simp only [pipelineBuild]
      rw [hk]
    · intro pc hpc hne
      have hedge : (anchorOf pc.1, anchorOf pc.2) ∈
          (buildDependencyGraph anchorOf deps wirings).edges :=
        (hrel _ _).2 (Or.inl ⟨pc, hpc, rfl, rfl, hne⟩)
      exact (hspec.2.2 _ _ hedge).2
    · intro w hw hne
      have hedge : (anchorOf w.2, anchorOf w.1) ∈
          (buildDependencyGraph anchorOf deps wirings).edges :=
        (hrel _ _).2 (Or.inr ⟨w, hw, rfl, rfl, hne⟩)
      exact (hspec.2.2 _ _ hedge).2
  · intro hcyc
    obtain ⟨w, hw⟩ := hcyc
    obtain ⟨stuck, herr, hne, hall⟩ :=
      kahnTopoSort_cyclic_error hWF hind ((htg w w).2 hw)
    refine ⟨stuck, ?_, hne, fun x hx => hall x ((htg x x).2 hx)⟩
    simp only [pipelineStart, pipelineBuild]
    rw [herr]

/-- Witness for C1, acyclic half: one declared dependency `0 → 1` yields the
order `[0, 1]`; cyclic half: mutually wired anchors `0 ⇄ 1` make `start()`
fail with both stuck anchors named and nothing started. -/
theorem topo_order_and_cycle_failure_witness :
    (∃ b, pipelineBuild [0, 1] [0, 1] ([] : List Nat) id [(0, 1)]
        ([] : List (Nat × Nat)) = .ok b ∧
      (∀ pc ∈ [((0 : Nat), (1 : Nat))], id pc.1 ≠ id pc.2 →
        b.topo.indexOf (id pc.1) < b.topo.indexOf (id pc.2)) ∧
      (∀ w ∈ ([] : List (Nat × Nat)), id w.2 ≠ id w.1 →
        b.topo.indexOf (id w.2) < b.topo.indexOf (id w.1)))
  ∧ (∃ stuck : List Nat,
      pipelineStart [0, 1] [0, 1] ([] : List Nat) id ([] : List (Nat × Nat))
          [(0, 1), (1, 0)] (fun n => if n = 0 then "a" else "b")
          (fun _ => true) =
        { started := [], rolledBack := [],
          result := .error (.cycle (stuck.map (fun n => if n = 0 then "a" else "b"))) } ∧
      stuck ≠ [] ∧
      ∀ x, Relation.TransGen (depWireEdge id ([] : List (Nat × Nat))
        [(0, 1), (1, 0)]) x x → x ∈ stuck) := by
  constructor
  · refine (topo_order_and_cycle_failure [0, 1] [0, 1] [] id [(0, 1)] []
      (fun n => if n = 0 then "a" else "b") (fun _ => true)
      (by decide) (by decide)).1 ?_
    -- acyclicity: the only relation step is 0 → 1, which increases
    intro w hw
    have hmono : ∀ a b, depWireEdge id [((0 : Nat), 1)] [] a b → a < b := by
      intro a b h
      rcases h with ⟨pc, hpc, h1, h2, hne⟩ | ⟨x, hx, _, _, _⟩
      · rw [List.mem_singleton] at hpc
        subst hpc
        simp only [id] at h1 h2
        omega
      · cases hx
    have hlt := Relation.TransGen.mono hmono hw
    have key : ∀ a b : Nat, Relation.TransGen (fun x y : Nat => x < y) a b → a < b := by
      intro a b h
      induction h with
      | single h => exact h
      | tail h1 h2 ih => exact Nat.lt_trans ih h2
    exact absurd (key w w hlt) (lt_irrefl w)
  · refine (topo_order_and_cycle_failure [0, 1] [0, 1] [] id []
      [(0, 1), (1, 0)] (fun n => if n = 0 then "a" else "b")
      (fun _ => true) (by decide) (by decide)).2 ?_
    -- the cycle 0 → 1 → 0 through the two wiring edges
    have h01 : depWireEdge id ([] : List (Nat × Nat)) [(0, 1), (1, 0)] 0 1 := by
      refine Or.inr ⟨(1, 0), by decide, rfl, rfl, by decide⟩
    have h10 : depWireEdge id ([] : List (Nat × Nat)) [(0, 1), (1, 0)] 1 0 := by
      refine Or.inr ⟨(0, 1), by decide, rfl, rfl, by decide⟩
    exact ⟨0, Relation.TransGen.tail (Relation.TransGen.single h01) h10⟩

/-- Witness for C3 (the spec's rollback scenario): anchors `0 → 1 → 2` by
declared dependencies, `2`'s start fails: `0, 1` started, disposed in reverse
order `[1, 0]`, `2` never started, original failure re-raised. -/
theorem start_failure_rolls_back_in_reverse_witness :
    pipelineStart [0, 1, 2] [0, 1, 2] ([] : List Nat) id [(0, 1), (1, 2)]
        ([] : List (Nat × Nat)) (fun _ => "n") (fun a => !(a == 2)) =
      { started := [0, 1], rolledBack := [1, 0],
        result := .error (.anchorFailed 2) } ∧
    (2 : Nat) ∉ [0, 1] := by
  have h := start_failure_rolls_back_in_reverse [0, 1, 2] [0, 1, 2] [] id
    [(0, 1), (1, 2)] [] (fun _ => "n") (fun a => !(a == 2))
    ⟨[0, 1, 2], [0, 1, 2], [], buildDependencyGraph id [(0, 1), (1, 2)] [],
      [0, 1, 2], [0, 1, 2]⟩
    (by decide) (by decide) (by rfl) [0, 1] [] 2 rfl (by decide) (by decide)
  exact h

/-- Claim C2, counterexample: The claim states `add(leafUnit)` with no wiring
and no `keepAlive` results in the unit's anchor never being started.  In the
code, `build()` keeps every explicit root's anchor in the active schedule
(the `rootAnchors.has(a)` disjunct of the active filter), so a single
isolated leaf added without `keepAlive` IS started. -/
theorem keepalive_scenario_counterexample :
    pipelineStart [0] [0] ([] : List Nat) id ([] : List (Nat × Nat))
        ([] : List (Nat × Nat)) (fun _ => "leaf") (fun _ => true) =
      { started := [0], rolledBack := [], result := .ok () } := rfl

/-- Claim C2, amended: Any explicitly added unit's anchor is in the active
schedule and is started by a successful `start()` run — with or without
`keepAlive` (keep-alive roots are a subset of roots, so the flag adds
nothing for explicitly added units). -/
theorem explicit_root_always_started
    (allNodes roots keepAliveRoots : List α) (anchorOf : α → α)
    (deps wirings : List (α × α)) (nameOf : α → String) (startOk : α → Bool)
    (hdeps : ∀ pc ∈ deps, pc.1 ∈ allNodes ∧ pc.2 ∈ allNodes)
    (hwire : ∀ w ∈ wirings, w.1 ∈ allNodes ∧ w.2 ∈ allNodes)
    (leaf : α) (hroot : leaf ∈ roots) (hallm : leaf ∈ allNodes)
    (b : BuildResult α)
    (hbuild : pipelineBuild allNodes roots keepAliveRoots anchorOf deps wirings
      = .ok b)
    (hok : ∀ a ∈ b.activeTopo, startOk a = true) :
    (pipelineStart allNodes roots keepAliveRoots anchorOf deps wirings nameOf
      startOk).started = b.activeTopo ∧
    anchorOf leaf ∈ b.activeTopo := by
  obtain ⟨hN, hactN, hmemiff, hord, hact⟩ := pipelineBuild_ok_parts allNodes
    roots keepAliveRoots anchorOf deps wirings b hdeps hwire hbuild
  constructor
  · simp only [pipelineStart, hbuild]
    rw [startLoop_all_ok startOk b.activeTopo hok []]
    simp
  · rw [hact]
    refine List.mem_filter.2 ⟨?_, ?_⟩
    · exact (hmemiff _).2
        ((foldl_insertUnique_mem anchorOf allNodes [] _).2 (Or.inr ⟨leaf, hallm, rfl⟩))
    · have hmem : anchorOf leaf ∈
          roots.foldl (fun acc n => insertUnique acc (anchorOf n)) [] :=
        (foldl_insertUnique_mem anchorOf roots [] _).2 (Or.inr ⟨leaf, hroot, rfl⟩)
      simp [hmem]

/-- Witness for the amended C2: the isolated leaf added without `keepAlive`
is active and started. -/
theorem explicit_root_always_started_witness :
    (pipelineStart [0] [0] ([] : List Nat) id ([] : List (Nat × Nat))
        ([] : List (Nat × Nat)) (fun _ => "leaf") (fun _ => true)).started = [0] ∧
    (0 : Nat) ∈ [(0 : Nat)] := by
  have h := explicit_root_always_started [0] [0] [] id [] [] (fun _ => "leaf")
    (fun _ => true) (by decide) (by decide) 0 (by decide) (by decide)
    ⟨[0], [0], [], buildDependencyGraph id [] [], [0], [0]⟩ (by rfl) (by decide)
  exact h

end Orchestrator

end PipelineSpec
